import Mathlib

/-!
Verification of the copy-on-write trie in trie.cpp and of the minimal
unit-test harness that accompanies it.

The trie stores heterogeneously typed payloads behind a type-erased node
hierarchy; here the payload universe is a sum type.  The constructors
u32 / u64 / str model the three types at which Put and Get are explicitly
instantiated; intV models the int payload that only appears in the
downcast ladder of CreateNodeWithNewChildren; other models a payload of
any type outside that ladder, so that the payload-dropping fallback
branch of the ladder is representable.

Keys are lists of characters (byte strings).  The std::map child map is
modelled as an association list kept in ascending key order by the
insertion helper; lookups are byte-exact first-match.
-/

/-- Payload values.  u32 and u64 carry a natural number (Put and Get never
compute with the value, so the carrier is opaque); str carries a string;
intV models the signed-int payload recognised only by the downcast ladder;
other models a payload of a type the ladder does not recognise. -/
inductive TrieValue where
  | u32 : Nat → TrieValue
  | u64 : Nat → TrieValue
  | str : String → TrieValue
  | intV : Int → TrieValue
  | other : Nat → TrieValue
deriving DecidableEq, Repr

/-- The three type tags at which Trie::Get is explicitly instantiated. -/
inductive Tag where
  | u32
  | u64
  | str
deriving DecidableEq, Repr

/-- The dynamic-cast check of Trie::Get: does the stored payload have the
type requested by the caller?  Mirrors
dynamic_cast<const TrieNodeWithValue<T>*>. -/
def tagMatches : Tag → TrieValue → Bool
  | .u32, .u32 _ => true
  | .u64, .u64 _ => true
  | .str, .str _ => true
  | _, _ => false

/-- The payload is of one of the three types at which Trie::Put is
explicitly instantiated (the public interface). -/
def publicValue : TrieValue → Bool
  | .u32 _ => true
  | .u64 _ => true
  | .str _ => true
  | _ => false

/-- The payload is of one of the four types enumerated by the downcast
ladder of CreateNodeWithNewChildren (uint32_t, uint64_t, std::string, int). -/
def ladderOk : TrieValue → Bool
  | .other _ => false
  | _ => true

/-- Modelled from the spec: the node representation declared in trie.h
(absent from src/).  A node has a child map indexed by single byte and an
optional type-tagged payload; value nodes (TrieNodeWithValue) are the
nodes whose payload is present, so is_value_node_ corresponds to
value.isSome. -/
inductive TrieNode where
  | mk (children : List (Char × TrieNode)) (value : Option TrieValue)

/-- The child map of a node (children_). -/
def TrieNode.children : TrieNode → List (Char × TrieNode)
  | .mk cs _ => cs

/-- The optional payload of a node; isSome corresponds to is_value_node_. -/
def TrieNode.value : TrieNode → Option TrieValue
  | .mk _ v => v

/-- std::map::find on the child map: first entry with the given key. -/
def findChild : List (Char × TrieNode) → Char → Option TrieNode
  | [], _ => none
  | (c, n) :: rest, k => if c = k then some n else findChild rest k

/-- std::map operator[] assignment on the child map: replace the entry for
the key if present, otherwise insert it at its ordered position. -/
def insertChild : List (Char × TrieNode) → Char → TrieNode → List (Char × TrieNode)
  | [], c, n => [(c, n)]
  | (c', n') :: rest, c, n =>
    if c = c' then (c, n) :: rest
    else if c < c' then (c, n) :: (c', n') :: rest
    else (c', n') :: insertChild rest c n

/-- The child-copy loop of RemoveHelper: copy every entry whose key differs
from the given byte, preserving order. -/
def eraseChild (cs : List (Char × TrieNode)) (c : Char) : List (Char × TrieNode) :=
  cs.filter (fun p => p.1 ≠ c)

/-- The trie facade: an optional shared root (Trie::root_).  The absent
root is the empty trie. -/
structure Trie where
  root : Option TrieNode

/-- The default-constructed empty trie. -/
def Trie.empty : Trie := ⟨none⟩

/-- The key walk of Trie::Get: follow one child edge per key byte; absent
edge means absent result. -/
def walkNode : TrieNode → List Char → Option TrieNode
  | n, [] => some n
  | n, c :: rest =>
    match findChild n.children c with
    | none => none
    | some child => walkNode child rest

/-- Trie::Get<T>: walk the key from the root, require a value node, and
require the payload to have the requested type (the dynamic_cast); any
failure is reported as absence. -/
def Trie.Get (T : Tag) (t : Trie) (key : List Char) : Option TrieValue :=
  match t.root with
  | none => none
  | some r =>
    match walkNode r key with
    | none => none
    | some cur =>
      match cur.value with
      | none => none
      | some v => if tagMatches T v then some v else none

/-- The raw payload reachable at a key (walk, then the optional payload),
independent of any type tag.  Used to state presence and absence. -/
def lookupV (node : Option TrieNode) (key : List Char) : Option TrieValue :=
  match node with
  | none => none
  | some n =>
    match walkNode n key with
    | none => none
    | some m => m.value

/-- CreateNodeWithNewChildren: rebuild a node with a new child map.  If the
original node is absent or has no payload the result is a plain node;
otherwise the downcast ladder re-wraps the payload for uint32_t, uint64_t,
std::string and int, and for any other payload type the fallback drops the
payload and returns a plain valueless node. -/
def CreateNodeWithNewChildren (node : Option TrieNode)
    (newChildren : List (Char × TrieNode)) : TrieNode :=
  match node with
  | none => .mk newChildren none
  | some n =>
    match n.value with
    | none => .mk newChildren none
    | some (.u32 x) => .mk newChildren (some (.u32 x))
    | some (.u64 x) => .mk newChildren (some (.u64 x))
    | some (.str s) => .mk newChildren (some (.str s))
    | some (.intV i) => .mk newChildren (some (.intV i))
    | some (.other _) => .mk newChildren none

/-- PutHelper: copy-on-write insertion.  Empty key replaces the payload at
the current node keeping its children; otherwise the child for the first
byte is updated (or a fresh path is built) and the node is rebuilt with
CreateNodeWithNewChildren. -/
def PutHelper (node : Option TrieNode) (key : List Char) (value : TrieValue) : TrieNode :=
  match key with
  | [] =>
    match node with
    | none => .mk [] (some value)
    | some n => .mk n.children (some value)
  | c :: rest =>
    let oldChildren := match node with
      | none => []
      | some n => n.children
    let child := match findChild oldChildren c with
      | some old => PutHelper (some old) rest value
      | none => PutHelper none rest value
    CreateNodeWithNewChildren node (insertChild oldChildren c child)

/-- Trie::Put<T>: rebuild the spine for the key and return a new facade. -/
def Trie.Put (t : Trie) (key : List Char) (value : TrieValue) : Trie :=
  ⟨some (PutHelper t.root key value)⟩

/-- RemoveHelper: copy-on-write removal.  Empty key drops the payload,
returning a plain node when children remain and absence otherwise; a
missing edge returns the original node; after the recursive step a node
that is valueless and childless is pruned. -/
def RemoveHelper (node : Option TrieNode) (key : List Char) : Option TrieNode :=
  match node with
  | none => none
  | some n =>
    match key with
    | [] =>
      if n.children.isEmpty then none
      else some (.mk n.children none)
    | c :: rest =>
      match findChild n.children c with
      | none => some n
      | some child =>
        let newChild := RemoveHelper (some child) rest
        let newChildren := match newChild with
          | some nc => insertChild (eraseChild n.children c) c nc
          | none => eraseChild n.children c
        if n.value.isNone && newChildren.isEmpty then none
        else some (CreateNodeWithNewChildren (some n) newChildren)

/-- Trie::Remove: remove the key and return a new facade. -/
def Trie.Remove (t : Trie) (key : List Char) : Trie :=
  ⟨RemoveHelper t.root key⟩

/-- PutHelper instrumented with an allocation count: the second component
counts the nodes freshly constructed (one make_shared per recursion step,
either the terminal value node or the node built by
CreateNodeWithNewChildren). -/
def PutHelperC (node : Option TrieNode) (key : List Char) (value : TrieValue) :
    TrieNode × Nat :=
  match key with
  | [] =>
    match node with
    | none => (.mk [] (some value), 1)
    | some n => (.mk n.children (some value), 1)
  | c :: rest =>
    let oldChildren := match node with
      | none => []
      | some n => n.children
    let childC := match findChild oldChildren c with
      | some old => PutHelperC (some old) rest value
      | none => PutHelperC none rest value
    (CreateNodeWithNewChildren node (insertChild oldChildren c childC.1), childC.2 + 1)

/-- CreateNodeWithNewChildren instrumented with a flag that is true exactly
when the payload-dropping fallback branch (unrecognised payload type) is
taken. -/
def CreateNodeWithNewChildrenF (node : Option TrieNode)
    (newChildren : List (Char × TrieNode)) : TrieNode × Bool :=
  match node with
  | none => (.mk newChildren none, false)
  | some n =>
    match n.value with
    | none => (.mk newChildren none, false)
    | some (.u32 x) => (.mk newChildren (some (.u32 x)), false)
    | some (.u64 x) => (.mk newChildren (some (.u64 x)), false)
    | some (.str s) => (.mk newChildren (some (.str s)), false)
    | some (.intV i) => (.mk newChildren (some (.intV i)), false)
    | some (.other _) => (.mk newChildren none, true)

/-- PutHelper instrumented with a flag that is true exactly when some call
to CreateNodeWithNewChildren along the rebuilt spine took the
payload-dropping fallback branch. -/
def PutHelperF (node : Option TrieNode) (key : List Char) (value : TrieValue) :
    TrieNode × Bool :=
  match key with
  | [] =>
    match node with
    | none => (.mk [] (some value), false)
    | some n => (.mk n.children (some value), false)
  | c :: rest =>
    let oldChildren := match node with
      | none => []
      | some n => n.children
    let childF := match findChild oldChildren c with
      | some old => PutHelperF (some old) rest value
      | none => PutHelperF none rest value
    let nodeF := CreateNodeWithNewChildrenF node (insertChild oldChildren c childF.1)
    (nodeF.1, childF.2 || nodeF.2)

/-- RemoveHelper instrumented with a flag that is true exactly when some
call to CreateNodeWithNewChildren along the rebuilt spine took the
payload-dropping fallback branch. -/
def RemoveHelperF (node : Option TrieNode) (key : List Char) :
    Option TrieNode × Bool :=
  match node with
  | none => (none, false)
  | some n =>
    match key with
    | [] =>
      if n.children.isEmpty then (none, false)
      else (some (.mk n.children none), false)
    | c :: rest =>
      match findChild n.children c with
      | none => (some n, false)
      | some child =>
        let newChildF := RemoveHelperF (some child) rest
        let newChildren := match newChildF.1 with
          | some nc => insertChild (eraseChild n.children c) c nc
          | none => eraseChild n.children c
        if n.value.isNone && newChildren.isEmpty then (none, newChildF.2)
        else
          let nodeF := CreateNodeWithNewChildrenF (some n) newChildren
          (some nodeF.1, newChildF.2 || nodeF.2)

mutual

/-- Every payload in the subtree of a node is of a type enumerated by the
downcast ladder. -/
def nodeLaddered : TrieNode → Bool
  | .mk cs v =>
    (match v with
     | none => true
     | some x => ladderOk x) && childrenLaddered cs

/-- Every payload below a child list is of a type enumerated by the
downcast ladder. -/
def childrenLaddered : List (Char × TrieNode) → Bool
  | [] => true
  | (_, n) :: rest => nodeLaddered n && childrenLaddered rest

end

mutual

/-- Every payload in the subtree of a node is of one of the three publicly
instantiated types. -/
def nodePublic : TrieNode → Bool
  | .mk cs v =>
    (match v with
     | none => true
     | some x => publicValue x) && childrenPublic cs

/-- Every payload below a child list is of one of the three publicly
instantiated types. -/
def childrenPublic : List (Char × TrieNode) → Bool
  | [] => true
  | (_, n) :: rest => nodePublic n && childrenPublic rest

end

mutual

/-- No orphan internals within the subtree of a node: every valueless node
has a non-empty child map. -/
def nodeNoOrphans : TrieNode → Bool
  | .mk cs v => (v.isSome || !cs.isEmpty) && childrenNoOrphans cs

/-- No orphan internals below a child list. -/
def childrenNoOrphans : List (Char × TrieNode) → Bool
  | [] => true
  | (_, n) :: rest => nodeNoOrphans n && childrenNoOrphans rest

end

/-- Lift a subtree predicate to an optional node (the absent node satisfies
everything). -/
def optHolds (p : TrieNode → Bool) : Option TrieNode → Bool
  | none => true
  | some n => p n

/-- Every payload in the trie is of a type enumerated by the downcast
ladder. -/
def trieLaddered (t : Trie) : Bool := optHolds nodeLaddered t.root

/-- Every payload in the trie is of one of the three publicly instantiated
types. -/
def triePublic (t : Trie) : Bool := optHolds nodePublic t.root

/-- No reachable valueless node of the trie is childless. -/
def trieNoOrphans (t : Trie) : Bool := optHolds nodeNoOrphans t.root

/-- The tries constructible through the public interface: the empty trie,
Put with a value of one of the three instantiated types, and Remove. -/
inductive Reachable : Trie → Prop where
  | empty : Reachable Trie.empty
  | putStep {t : Trie} (key : List Char) {v : TrieValue} :
      Reachable t → publicValue v = true → Reachable (t.Put key v)
  | removeStep {t : Trie} (key : List Char) :
      Reachable t → Reachable (t.Remove key)

namespace Harness

/-- A registered test case, as the accounting of the runner can observe
it: the truth values of the assertions the body would execute in order
(ASSERT_TRUE of its condition, ASSERT_EQ of the equality of its operands),
and whether the body throws an exception once all assertions have
passed. -/
structure TestCase where
  name : String
  asserts : List Bool
  throwsAfter : Bool
deriving DecidableEq, Repr

/-- How one test body terminates. -/
inductive Outcome where
  | passedAll
  | assertionFailed
  | threw
deriving DecidableEq, Repr

/-- Execution of one test body: assertions run in order; the first false
one prints a diagnostic and returns early from the function (outcome
assertionFailed); if all hold and the body then throws, the outcome is
threw; otherwise the body returns normally with every assertion passed. -/
def runBody (t : TestCase) : Outcome :=
  if t.asserts.all (fun b => b) then
    (if t.throwsAfter then .threw else .passedAll)
  else .assertionFailed

/-- The pass and failure counters of RUN_ALL_TESTS. -/
structure RunResult where
  passed : Nat
  failed : Nat
deriving DecidableEq, Repr

/-- The accounting loop of RUN_ALL_TESTS: each test body is run inside a
try block; only a thrown exception reaches the catch clauses and
increments failed, while any normal return — including an early return
after a failed assertion — falls through to the passed counter. -/
def runAllTests (tests : List TestCase) : RunResult :=
  tests.foldl
    (fun acc t =>
      match runBody t with
      | .threw => ⟨acc.passed, acc.failed + 1⟩
      | _ => ⟨acc.passed + 1, acc.failed⟩)
    ⟨0, 0⟩

/-- The process exit status: RUN_ALL_TESTS returns the failed counter from
main. -/
def exitStatus (tests : List TestCase) : Nat := (runAllTests tests).failed

/-- A test succeeded when every assertion held and no exception escaped. -/
def testSucceeded (t : TestCase) : Bool :=
  match runBody t with
  | .passedAll => true
  | _ => false

end Harness

/-- The pairwise agreement of off-path children between the result of a
mutation and the original trie, along a key: at every depth where the
original still has a node, every child edge whose byte differs from the
key byte at that depth is the same subtree in both, and the walk continues
one level down. -/
def offPathAgree : TrieNode → Option TrieNode → List Char → Prop
  | _, _, [] => True
  | _, none, _ :: _ => True
  | n, some o, c :: rest =>
    (∀ b, b ≠ c → findChild n.children b = findChild o.children b) ∧
    (match findChild n.children c, findChild o.children c with
     | some n2, o2 => offPathAgree n2 o2 rest
     | none, _ => True)


/-! ## Basic lemmas on the child map and the walk -/

theorem findChild_insertChild_self (cs : List (Char × TrieNode)) (c : Char) (n : TrieNode) :
    findChild (insertChild cs c n) c = some n := by
  induction cs with
  | nil => simp [insertChild, findChild]
  | cons p rest ih =>
    obtain ⟨c', n'⟩ := p
    by_cases h : c = c'
    · simp [insertChild, h, findChild]
    · by_cases hlt : c < c'
      · simp [insertChild, h, hlt, findChild]
      · simp [insertChild, h, hlt, findChild, Ne.symm h, ih]

theorem findChild_insertChild_ne (cs : List (Char × TrieNode)) (c b : Char) (n : TrieNode)
    (hb : b ≠ c) : findChild (insertChild cs c n) b = findChild cs b := by
  induction cs with
  | nil => simp [insertChild, findChild, Ne.symm hb]
  | cons p rest ih =>
    obtain ⟨c', n'⟩ := p
    by_cases h : c = c'
    · subst h
      simp [insertChild, findChild, Ne.symm hb]
    · by_cases hlt : c < c'
      · simp [insertChild, h, hlt, findChild, Ne.symm hb]
      · simp [insertChild, h, hlt, findChild, ih]

theorem findChild_eraseChild_ne (cs : List (Char × TrieNode)) (c b : Char)
    (hb : b ≠ c) : findChild (eraseChild cs c) b = findChild cs b := by
  induction cs with
  | nil => simp [eraseChild, findChild]
  | cons p rest ih =>
    obtain ⟨c', n'⟩ := p
    by_cases h : c' = c
    · subst h
      have : ¬ c' = b := fun hcb => hb (hcb ▸ rfl)
      simp [eraseChild, findChild, List.filter] at ih ⊢
      simp [this, ih]
    · by_cases h2 : c' = b
      · subst h2
        simp [eraseChild, findChild, List.filter, h]
      · simp [eraseChild, findChild, List.filter, h, h2] at ih ⊢
        exact ih

theorem eraseChild_eq_nil_findChild (cs : List (Char × TrieNode)) (c b : Char)
    (h : eraseChild cs c = []) (hb : b ≠ c) : findChild cs b = none := by
  have := findChild_eraseChild_ne cs c b hb
  rw [h] at this
  simpa [findChild] using this.symm

theorem insertChild_ne_nil (cs : List (Char × TrieNode)) (c : Char) (n : TrieNode) :
    insertChild cs c n ≠ [] := by
  cases cs with
  | nil => simp [insertChild]
  | cons p rest =>
    obtain ⟨c', n'⟩ := p
    by_cases h : c = c'
    · simp [insertChild, h]
    · by_cases hlt : c < c'
      · simp [insertChild, h, hlt]
      · simp [insertChild, h, hlt]

theorem lookupV_none (key : List Char) : lookupV none key = none := rfl

theorem lookupV_some_nil (n : TrieNode) : lookupV (some n) [] = n.value := rfl

theorem lookupV_some_cons (n : TrieNode) (c : Char) (rest : List Char) :
    lookupV (some n) (c :: rest) = lookupV (findChild n.children c) rest := by
  cases h : findChild n.children c with
  | none => simp [lookupV, walkNode, h]
  | some child =>
    cases rest with
    | nil => simp [lookupV, walkNode, h]
    | cons d tail => simp [lookupV, walkNode, h]

theorem CreateNodeWithNewChildren_children (node : Option TrieNode)
    (ncs : List (Char × TrieNode)) :
    (CreateNodeWithNewChildren node ncs).children = ncs := by
  cases node with
  | none => rfl
  | some n =>
    cases n with
    | mk cs v =>
      cases v with
      | none => rfl
      | some x => cases x <;> rfl

theorem CreateNodeWithNewChildren_value_ladder (n : TrieNode)
    (ncs : List (Char × TrieNode)) (x : TrieValue)
    (hv : n.value = some x) (hx : ladderOk x = true) :
    (CreateNodeWithNewChildren (some n) ncs).value = some x := by
  cases n with
  | mk cs v =>
    simp [TrieNode.value] at hv
    subst hv
    cases x <;> simp_all [CreateNodeWithNewChildren, TrieNode.value, ladderOk]

theorem CreateNodeWithNewChildren_value_none (n : TrieNode)
    (ncs : List (Char × TrieNode)) (hv : n.value = none) :
    (CreateNodeWithNewChildren (some n) ncs).value = none := by
  cases n with
  | mk cs v =>
    simp [TrieNode.value] at hv
    subst hv
    rfl

/-! ## The spine rebuild of Put -/

/-- The child map an optional node contributes to the rebuild (empty for
the absent node). -/
def childrenOf : Option TrieNode → List (Char × TrieNode)
  | none => []
  | some n => n.children

theorem PutHelper_cons (node : Option TrieNode) (c : Char) (rest : List Char)
    (v : TrieValue) :
    PutHelper node (c :: rest) v =
      CreateNodeWithNewChildren node
        (insertChild (childrenOf node) c
          (PutHelper (findChild (childrenOf node) c) rest v)) := by
  cases node with
  | none =>
    simp only [PutHelper, childrenOf]
    cases h : findChild [] c <;> simp [h]
  | some n =>
    simp only [PutHelper, childrenOf]
    cases h : findChild n.children c <;> simp [h]

theorem Get_eq_lookupV (T : Tag) (t : Trie) (key : List Char) :
    Trie.Get T t key =
      (match lookupV t.root key with
       | none => none
       | some v => if tagMatches T v then some v else none) := by
  obtain ⟨root⟩ := t
  cases root with
  | none => rfl
  | some r =>
    simp only [Trie.Get, lookupV]
    cases walkNode r key with
    | none => rfl
    | some cur => cases cur.value <;> rfl

theorem lookupV_PutHelper_self (key : List Char) (node : Option TrieNode) (v : TrieValue) :
    lookupV (some (PutHelper node key v)) key = some v := by
  induction key generalizing node with
  | nil => cases node <;> rfl
  | cons c rest ih =>
    rw [lookupV_some_cons, PutHelper_cons, CreateNodeWithNewChildren_children,
      findChild_insertChild_self]
    exact ih _

theorem nodeLaddered_value (n : TrieNode) (x : TrieValue)
    (h : nodeLaddered n = true) (hv : n.value = some x) : ladderOk x = true := by
  cases n with
  | mk cs v =>
    simp [TrieNode.value] at hv
    subst hv
    simp [nodeLaddered] at h
    exact h.1

theorem childrenLaddered_find (cs : List (Char × TrieNode)) (c : Char) (m : TrieNode)
    (h : childrenLaddered cs = true) (hf : findChild cs c = some m) :
    nodeLaddered m = true := by
  induction cs with
  | nil => simp [findChild] at hf
  | cons p rest ih =>
    obtain ⟨c', n'⟩ := p
    simp [childrenLaddered] at h
    simp [findChild] at hf
    by_cases hc : c' = c
    · simp [hc] at hf
      exact hf ▸ h.1
    · simp [hc] at hf
      exact ih h.2 hf

theorem nodeLaddered_child (n : TrieNode) (c : Char)
    (h : nodeLaddered n = true) :
    optHolds nodeLaddered (findChild n.children c) = true := by
  cases hf : findChild n.children c with
  | none => rfl
  | some m =>
    cases n with
    | mk cs v =>
      simp [nodeLaddered] at h
      simp [TrieNode.children] at hf
      exact childrenLaddered_find cs c m h.2 hf

theorem lookupV_PutHelper_other (key : List Char) (node : Option TrieNode) (v : TrieValue)
    (key2 : List Char) (hne : key2 ≠ key)
    (hlad : optHolds nodeLaddered node = true) :
    lookupV (some (PutHelper node key v)) key2 = lookupV node key2 := by
  induction key generalizing node key2 with
  | nil =>
    cases key2 with
    | nil => exact absurd rfl hne
    | cons c2 r2 =>
      rw [lookupV_some_cons]
      cases node with
      | none =>
        simp [PutHelper, TrieNode.children, findChild, lookupV]
      | some n =>
        rw [lookupV_some_cons]
        simp [PutHelper, TrieNode.children]
  | cons c rest ih =>
    rw [PutHelper_cons]
    cases key2 with
    | nil =>
      rw [lookupV_some_nil]
      cases node with
      | none => simp [CreateNodeWithNewChildren, TrieNode.value, lookupV]
      | some n =>
        rw [lookupV_some_nil]
        cases hv : n.value with
        | none => rw [CreateNodeWithNewChildren_value_none _ _ hv]
        | some x =>
          have hx : ladderOk x = true := nodeLaddered_value n x hlad hv
          rw [CreateNodeWithNewChildren_value_ladder _ _ _ hv hx]
    | cons c2 r2 =>
      rw [lookupV_some_cons, CreateNodeWithNewChildren_children]
      by_cases hc : c2 = c
      · subst hc
        rw [findChild_insertChild_self]
        have hr : r2 ≠ rest := fun h => hne (by rw [h])
        cases node with
        | none =>
          simp only [childrenOf, findChild]
          rw [ih none r2 hr rfl]
          rfl
        | some n =>
          rw [lookupV_some_cons]
          simp only [childrenOf]
          exact ih (findChild n.children c2) r2 hr (nodeLaddered_child n c2 hlad)
      · rw [findChild_insertChild_ne _ _ _ _ hc]
        cases node with
        | none =>
          simp [childrenOf, findChild, lookupV]
        | some n =>
          rw [lookupV_some_cons]
          rfl

/-! ## The spine rebuild of Remove -/

theorem findChild_eraseChild_self (cs : List (Char × TrieNode)) (c : Char) :
    findChild (eraseChild cs c) c = none := by
  induction cs with
  | nil => rfl
  | cons p rest ih =>
    obtain ⟨c', n'⟩ := p
    by_cases h : c' = c
    · simpa [eraseChild, List.filter, h] using ih
    · simp [eraseChild, List.filter, h, findChild] at ih ⊢
      exact ih

/-- The child-map update of the recursive step of RemoveHelper: entries for
the other bytes are copied, and the entry for the removed byte is replaced
by the recursive result or dropped when that result is absent. -/
def updatedChildren (cs : List (Char × TrieNode)) (c : Char) :
    Option TrieNode → List (Char × TrieNode)
  | some nc => insertChild (eraseChild cs c) c nc
  | none => eraseChild cs c

theorem RemoveHelper_none (key : List Char) : RemoveHelper none key = none := by
  cases key <;> rfl

theorem RemoveHelper_some_nil (n : TrieNode) :
    RemoveHelper (some n) [] =
      (if n.children.isEmpty then none else some (.mk n.children none)) := rfl

theorem RemoveHelper_some_cons_miss (n : TrieNode) (c : Char) (rest : List Char)
    (h : findChild n.children c = none) :
    RemoveHelper (some n) (c :: rest) = some n := by
  simp [RemoveHelper, h]

theorem RemoveHelper_some_cons_hit (n : TrieNode) (c : Char) (rest : List Char)
    (child : TrieNode) (h : findChild n.children c = some child) :
    RemoveHelper (some n) (c :: rest) =
      (if n.value.isNone &&
          (updatedChildren n.children c (RemoveHelper (some child) rest)).isEmpty then
        none
      else
        some (CreateNodeWithNewChildren (some n)
          (updatedChildren n.children c (RemoveHelper (some child) rest)))) := by
  simp only [RemoveHelper, h]
  cases RemoveHelper (some child) rest <;> rfl

theorem list_isEmpty_eq_nil {α : Type} (l : List α) (h : l.isEmpty = true) : l = [] := by
  cases l with
  | nil => rfl
  | cons a r => simp [List.isEmpty] at h

theorem insertChild_isEmpty (cs : List (Char × TrieNode)) (c : Char) (n : TrieNode) :
    (insertChild cs c n).isEmpty = false := by
  cases h : insertChild cs c n with
  | nil => exact absurd h (insertChild_ne_nil cs c n)
  | cons p r => rfl

theorem updatedChildren_noneCase (cs : List (Char × TrieNode)) (c : Char) :
    updatedChildren cs c none = eraseChild cs c := rfl

theorem updatedChildren_someCase (cs : List (Char × TrieNode)) (c : Char) (x : TrieNode) :
    updatedChildren cs c (some x) = insertChild (eraseChild cs c) c x := rfl

theorem lookupV_CreateNode_nil (n : TrieNode) (ncs : List (Char × TrieNode))
    (hlad : nodeLaddered n = true) :
    lookupV (some (CreateNodeWithNewChildren (some n) ncs)) [] = lookupV (some n) [] := by
  rw [lookupV_some_nil, lookupV_some_nil]
  cases hv : n.value with
  | none => rw [CreateNodeWithNewChildren_value_none _ _ hv]
  | some x =>
    rw [CreateNodeWithNewChildren_value_ladder _ _ _ hv (nodeLaddered_value n x hlad hv)]

theorem lookupV_CreateNode_cons (node : Option TrieNode) (ncs : List (Char × TrieNode))
    (c2 : Char) (r2 : List Char) :
    lookupV (some (CreateNodeWithNewChildren node ncs)) (c2 :: r2) =
      lookupV (findChild ncs c2) r2 := by
  rw [lookupV_some_cons, CreateNodeWithNewChildren_children]

theorem lookupV_RemoveHelper_absent (key : List Char) (node : Option TrieNode)
    (hlad : optHolds nodeLaddered node = true) (habs : lookupV node key = none) :
    ∀ key2, lookupV (RemoveHelper node key) key2 = lookupV node key2 := by
  induction key generalizing node with
  | nil =>
    cases node with
    | none => intro key2; rw [RemoveHelper_none]
    | some n =>
      rw [lookupV_some_nil] at habs
      intro key2
      cases hcs : n.children with
      | nil =>
        have h1 : RemoveHelper (some n) [] = none := by
          rw [RemoveHelper_some_nil, hcs]; rfl
        rw [h1]
        cases key2 with
        | nil => rw [lookupV_some_nil, habs]; rfl
        | cons c2 r2 => rw [lookupV_some_cons, hcs]; rfl
      | cons p ps =>
        have h1 : RemoveHelper (some n) [] = some (.mk n.children none) := by
          rw [RemoveHelper_some_nil, hcs]; rfl
        rw [h1]
        cases key2 with
        | nil => rw [lookupV_some_nil, lookupV_some_nil, habs]; rfl
        | cons c2 r2 =>
          rw [lookupV_some_cons, lookupV_some_cons]
          rfl
  | cons c rest ih =>
    cases node with
    | none => intro key2; rw [RemoveHelper_none]
    | some n =>
      rw [lookupV_some_cons] at habs
      cases hf : findChild n.children c with
      | none =>
        intro key2
        rw [RemoveHelper_some_cons_miss n c rest hf]
      | some child =>
        rw [hf] at habs
        have hladc : nodeLaddered child = true := by
          have h2 := nodeLaddered_child n c hlad
          rw [hf] at h2
          exact h2
        have hIH := ih (some child) hladc habs
        rw [RemoveHelper_some_cons_hit n c rest child hf]
        cases hnc : RemoveHelper (some child) rest with
        | none =>
          rw [hnc] at hIH
          rw [updatedChildren_noneCase]
          cases hcond : (n.value.isNone && (eraseChild n.children c).isEmpty) with
          | true =>
            rw [if_pos (rfl : true = true)]
            have hvn : n.value = none := by
              have h3 := (Bool.and_eq_true _ _).mp hcond
              cases hv : n.value with
              | none => rfl
              | some x => rw [hv] at h3; simp [Option.isNone] at h3
            have hemp : eraseChild n.children c = [] :=
              list_isEmpty_eq_nil _ ((Bool.and_eq_true _ _).mp hcond).2
            intro key2
            cases key2 with
            | nil => rw [lookupV_some_nil, hvn]; rfl
            | cons c2 r2 =>
              rw [lookupV_some_cons]
              by_cases hc2 : c2 = c
              · subst hc2
                rw [hf, ← hIH r2]
                rfl
              · rw [eraseChild_eq_nil_findChild n.children c c2 hemp hc2]
                rfl
          | false =>
            rw [if_neg (by simp [hcond])]
            intro key2
            cases key2 with
            | nil => exact lookupV_CreateNode_nil n _ hlad
            | cons c2 r2 =>
              rw [lookupV_CreateNode_cons, lookupV_some_cons]
              by_cases hc2 : c2 = c
              · subst hc2
                rw [findChild_eraseChild_self, hf, ← hIH r2]
              · rw [findChild_eraseChild_ne n.children c c2 hc2]
        | some x =>
          rw [hnc] at hIH
          rw [updatedChildren_someCase]
          rw [if_neg (by simp [insertChild_isEmpty])]
          intro key2
          cases key2 with
          | nil => exact lookupV_CreateNode_nil n _ hlad
          | cons c2 r2 =>
            rw [lookupV_CreateNode_cons, lookupV_some_cons]
            by_cases hc2 : c2 = c
            · subst hc2
              rw [findChild_insertChild_self, hf, hIH r2]
            · rw [findChild_insertChild_ne _ _ _ _ hc2,
                findChild_eraseChild_ne n.children c c2 hc2]

/-! ## The remove-after-put cascade on a fresh chain -/

theorem RemoveHelper_PutHelper_chain (key : List Char) (v : TrieValue) :
    RemoveHelper (some (PutHelper none key v)) key = none := by
  induction key with
  | nil => rfl
  | cons c rest ih =>
    have hp : PutHelper none (c :: rest) v =
        .mk [(c, PutHelper none rest v)] none := by
      rw [PutHelper_cons]; rfl
    rw [hp]
    rw [RemoveHelper_some_cons_hit _ c rest (PutHelper none rest v)
      (by simp [TrieNode.children, findChild])]
    rw [ih, updatedChildren_noneCase]
    simp [eraseChild, TrieNode.children, TrieNode.value, List.filter]

/-! ## Membership facts about the child-map operations -/

theorem findChild_mem (cs : List (Char × TrieNode)) (c : Char) (m : TrieNode)
    (h : findChild cs c = some m) : (c, m) ∈ cs := by
  induction cs with
  | nil => simp [findChild] at h
  | cons p rest ih =>
    obtain ⟨c', n'⟩ := p
    by_cases hc : c' = c
    · subst hc
      simp [findChild] at h
      simp [h]
    · simp [findChild, hc] at h
      exact List.mem_cons_of_mem _ (ih h)

theorem mem_insertChild (cs : List (Char × TrieNode)) (c : Char) (n : TrieNode)
    (p : Char × TrieNode) (h : p ∈ insertChild cs c n) : p = (c, n) ∨ p ∈ cs := by
  induction cs with
  | nil => simp [insertChild] at h; simp [h]
  | cons q rest ih =>
    obtain ⟨c', n'⟩ := q
    by_cases hc : c = c'
    · subst hc
      simp [insertChild] at h
      rcases h with h | h
      · exact Or.inl h
      · exact Or.inr (List.mem_cons_of_mem _ h)
    · by_cases hlt : c < c'
      · simp [insertChild, hc, hlt] at h
        rcases h with h | h | h
        · exact Or.inl h
        · exact Or.inr (by simp [h])
        · exact Or.inr (List.mem_cons_of_mem _ h)
      · simp [insertChild, hc, hlt] at h
        rcases h with h | h
        · exact Or.inr (by simp [h])
        · rcases ih h with h2 | h2
          · exact Or.inl h2
          · exact Or.inr (List.mem_cons_of_mem _ h2)

theorem mem_eraseChild (cs : List (Char × TrieNode)) (c : Char)
    (p : Char × TrieNode) (h : p ∈ eraseChild cs c) : p ∈ cs :=
  List.mem_of_mem_filter h

/-! ## Subtree predicates as universally quantified membership -/

theorem childrenPublic_eq_all (cs : List (Char × TrieNode)) :
    childrenPublic cs = true ↔ ∀ p ∈ cs, nodePublic p.2 = true := by
  induction cs with
  | nil => simp [childrenPublic]
  | cons q rest ih =>
    obtain ⟨c', n'⟩ := q
    simp [childrenPublic, ih]

theorem childrenNoOrphans_eq_all (cs : List (Char × TrieNode)) :
    childrenNoOrphans cs = true ↔ ∀ p ∈ cs, nodeNoOrphans p.2 = true := by
  induction cs with
  | nil => simp [childrenNoOrphans]
  | cons q rest ih =>
    obtain ⟨c', n'⟩ := q
    simp [childrenNoOrphans, ih]

theorem childrenPublic_insert (cs : List (Char × TrieNode)) (c : Char) (n : TrieNode)
    (hcs : childrenPublic cs = true) (hn : nodePublic n = true) :
    childrenPublic (insertChild cs c n) = true := by
  rw [childrenPublic_eq_all]
  intro p hp
  rcases mem_insertChild cs c n p hp with h | h
  · rw [h]; exact hn
  · exact (childrenPublic_eq_all cs).mp hcs p h

theorem childrenPublic_erase (cs : List (Char × TrieNode)) (c : Char)
    (hcs : childrenPublic cs = true) :
    childrenPublic (eraseChild cs c) = true := by
  rw [childrenPublic_eq_all]
  intro p hp
  exact (childrenPublic_eq_all cs).mp hcs p (mem_eraseChild cs c p hp)

theorem childrenNoOrphans_insert (cs : List (Char × TrieNode)) (c : Char) (n : TrieNode)
    (hcs : childrenNoOrphans cs = true) (hn : nodeNoOrphans n = true) :
    childrenNoOrphans (insertChild cs c n) = true := by
  rw [childrenNoOrphans_eq_all]
  intro p hp
  rcases mem_insertChild cs c n p hp with h | h
  · rw [h]; exact hn
  · exact (childrenNoOrphans_eq_all cs).mp hcs p h

theorem childrenNoOrphans_erase (cs : List (Char × TrieNode)) (c : Char)
    (hcs : childrenNoOrphans cs = true) :
    childrenNoOrphans (eraseChild cs c) = true := by
  rw [childrenNoOrphans_eq_all]
  intro p hp
  exact (childrenNoOrphans_eq_all cs).mp hcs p (mem_eraseChild cs c p hp)

theorem nodePublic_parts (n : TrieNode) (h : nodePublic n = true) :
    (∀ x, n.value = some x → publicValue x = true) ∧ childrenPublic n.children = true := by
  cases n with
  | mk cs v =>
    simp [nodePublic] at h
    refine ⟨fun x hx => ?_, h.2⟩
    cases v with
    | none => simp [TrieNode.value] at hx
    | some y =>
      simp [TrieNode.value] at hx
      exact hx ▸ h.1

theorem nodeNoOrphans_parts (n : TrieNode) (h : nodeNoOrphans n = true) :
    (n.value.isSome || !n.children.isEmpty) = true ∧ childrenNoOrphans n.children = true := by
  cases n with
  | mk cs v =>
    simp only [nodeNoOrphans, Bool.and_eq_true] at h
    exact ⟨h.1, h.2⟩

theorem nodePublic_child (n : TrieNode) (c : Char) (h : nodePublic n = true) :
    optHolds nodePublic (findChild n.children c) = true := by
  cases hf : findChild n.children c with
  | none => rfl
  | some m =>
    exact (childrenPublic_eq_all n.children).mp (nodePublic_parts n h).2 (c, m)
      (findChild_mem n.children c m hf)

theorem nodeNoOrphans_child (n : TrieNode) (c : Char) (h : nodeNoOrphans n = true) :
    optHolds nodeNoOrphans (findChild n.children c) = true := by
  cases hf : findChild n.children c with
  | none => rfl
  | some m =>
    exact (childrenNoOrphans_eq_all n.children).mp (nodeNoOrphans_parts n h).2 (c, m)
      (findChild_mem n.children c m hf)

/-! ## Invariant preservation -/

theorem nodePublic_CreateNode (node : Option TrieNode) (ncs : List (Char × TrieNode))
    (hn : optHolds nodePublic node = true) (hcs : childrenPublic ncs = true) :
    nodePublic (CreateNodeWithNewChildren node ncs) = true := by
  cases node with
  | none => simp [CreateNodeWithNewChildren, nodePublic, hcs]
  | some n =>
    cases n with
    | mk cs v =>
      cases v with
      | none => simp [CreateNodeWithNewChildren, TrieNode.value, nodePublic, hcs]
      | some x =>
        simp [optHolds, nodePublic] at hn
        cases x <;>
          simp_all [CreateNodeWithNewChildren, TrieNode.value, nodePublic, publicValue]

theorem nodeNoOrphans_CreateNode_nonempty (node : Option TrieNode)
    (ncs : List (Char × TrieNode)) (hcs : childrenNoOrphans ncs = true)
    (hne : ncs.isEmpty = false) :
    nodeNoOrphans (CreateNodeWithNewChildren node ncs) = true := by
  cases node with
  | none => simp [CreateNodeWithNewChildren, nodeNoOrphans, hcs, hne]
  | some n =>
    cases n with
    | mk cs v =>
      cases v with
      | none => simp [CreateNodeWithNewChildren, TrieNode.value, nodeNoOrphans, hcs, hne]
      | some x =>
        cases x <;>
          simp [CreateNodeWithNewChildren, TrieNode.value, nodeNoOrphans, hcs, hne]

theorem nodeNoOrphans_CreateNode_public (n : TrieNode) (ncs : List (Char × TrieNode))
    (hcs : childrenNoOrphans ncs = true) (x : TrieValue) (hv : n.value = some x)
    (hx : publicValue x = true) :
    nodeNoOrphans (CreateNodeWithNewChildren (some n) ncs) = true := by
  cases n with
  | mk cs v =>
    simp [TrieNode.value] at hv
    subst hv
    cases x <;>
      simp_all [CreateNodeWithNewChildren, nodeNoOrphans, publicValue, TrieNode.value,
        Option.isSome]

theorem nodePublic_PutHelper (key : List Char) (node : Option TrieNode) (v : TrieValue)
    (hn : optHolds nodePublic node = true) (hv : publicValue v = true) :
    nodePublic (PutHelper node key v) = true := by
  induction key generalizing node with
  | nil =>
    cases node with
    | none => simp [PutHelper, nodePublic, hv, childrenPublic]
    | some n =>
      simp [PutHelper, nodePublic, hv]
      exact (nodePublic_parts n hn).2
  | cons c rest ih =>
    rw [PutHelper_cons]
    apply nodePublic_CreateNode _ _ hn
    apply childrenPublic_insert
    · cases node with
      | none => rfl
      | some n => exact (nodePublic_parts n hn).2
    · apply ih
      cases node with
      | none => simp [childrenOf, findChild, optHolds]
      | some n => exact nodePublic_child n c hn

theorem nodeNoOrphans_PutHelper (key : List Char) (node : Option TrieNode) (v : TrieValue)
    (hn : optHolds nodeNoOrphans node = true) :
    nodeNoOrphans (PutHelper node key v) = true := by
  induction key generalizing node with
  | nil =>
    cases node with
    | none => simp [PutHelper, nodeNoOrphans, childrenNoOrphans]
    | some n =>
      simp [PutHelper, nodeNoOrphans]
      exact (nodeNoOrphans_parts n hn).2
  | cons c rest ih =>
    rw [PutHelper_cons]
    apply nodeNoOrphans_CreateNode_nonempty
    · apply childrenNoOrphans_insert
      · cases node with
        | none => rfl
        | some n => exact (nodeNoOrphans_parts n hn).2
      · apply ih
        cases node with
        | none => simp [childrenOf, findChild, optHolds]
        | some n => exact nodeNoOrphans_child n c hn
    · exact insertChild_isEmpty _ _ _

theorem nodePublic_RemoveHelper (key : List Char) (node : Option TrieNode)
    (hn : optHolds nodePublic node = true) :
    optHolds nodePublic (RemoveHelper node key) = true := by
  induction key generalizing node with
  | nil =>
    cases node with
    | none => rfl
    | some n =>
      rw [RemoveHelper_some_nil]
      cases hE : n.children.isEmpty with
      | true => rw [if_pos (rfl : true = true)]; rfl
      | false =>
        rw [if_neg (by simp)]
        simp [optHolds, nodePublic]
        exact (nodePublic_parts n hn).2
  | cons c rest ih =>
    cases node with
    | none => rw [RemoveHelper_none]; rfl
    | some n =>
      cases hf : findChild n.children c with
      | none => rw [RemoveHelper_some_cons_miss n c rest hf]; exact hn
      | some child =>
        have hchild : nodePublic child = true := by
          have h2 := nodePublic_child n c hn
          rw [hf] at h2
          exact h2
        have hIH := ih (some child) hchild
        rw [RemoveHelper_some_cons_hit n c rest child hf]
        cases hnc : RemoveHelper (some child) rest with
        | none =>
          rw [updatedChildren_noneCase]
          cases hcond : (n.value.isNone && (eraseChild n.children c).isEmpty) with
          | true => rw [if_pos (rfl : true = true)]; rfl
          | false =>
            rw [if_neg (by simp)]
            exact nodePublic_CreateNode _ _ hn
              (childrenPublic_erase _ _ (nodePublic_parts n hn).2)
        | some x =>
          rw [hnc] at hIH
          rw [updatedChildren_someCase]
          rw [if_neg (by simp [insertChild_isEmpty])]
          exact nodePublic_CreateNode _ _ hn
            (childrenPublic_insert _ _ _
              (childrenPublic_erase _ _ (nodePublic_parts n hn).2) hIH)

theorem nodeNoOrphans_RemoveHelper (key : List Char) (node : Option TrieNode)
    (hp : optHolds nodePublic node = true)
    (hn : optHolds nodeNoOrphans node = true) :
    optHolds nodeNoOrphans (RemoveHelper node key) = true := by
  induction key generalizing node with
  | nil =>
    cases node with
    | none => rfl
    | some n =>
      rw [RemoveHelper_some_nil]
      cases hE : n.children.isEmpty with
      | true => rw [if_pos (rfl : true = true)]; rfl
      | false =>
        rw [if_neg (by simp)]
        simp [optHolds, nodeNoOrphans, hE]
        exact (nodeNoOrphans_parts n hn).2
  | cons c rest ih =>
    cases node with
    | none => rw [RemoveHelper_none]; rfl
    | some n =>
      cases hf : findChild n.children c with
      | none => rw [RemoveHelper_some_cons_miss n c rest hf]; exact hn
      | some child =>
        have hchildP : nodePublic child = true := by
          have h2 := nodePublic_child n c hp
          rw [hf] at h2
          exact h2
        have hchildN : nodeNoOrphans child = true := by
          have h2 := nodeNoOrphans_child n c hn
          rw [hf] at h2
          exact h2
        have hIH := ih (some child) hchildP hchildN
        rw [RemoveHelper_some_cons_hit n c rest child hf]
        have hce : childrenNoOrphans (eraseChild n.children c) = true :=
          childrenNoOrphans_erase _ _ (nodeNoOrphans_parts n hn).2
        cases hnc : RemoveHelper (some child) rest with
        | none =>
          rw [updatedChildren_noneCase]
          cases hcond : (n.value.isNone && (eraseChild n.children c).isEmpty) with
          | true => rw [if_pos (rfl : true = true)]; rfl
          | false =>
            rw [if_neg (by simp)]
            simp only [optHolds]
            cases hv : n.value with
            | some x =>
              exact nodeNoOrphans_CreateNode_public n _ hce x hv
                ((nodePublic_parts n hp).1 x hv)
            | none =>
              apply nodeNoOrphans_CreateNode_nonempty _ _ hce
              rw [hv] at hcond
              simpa using hcond
        | some x =>
          rw [hnc] at hIH
          rw [updatedChildren_someCase]
          rw [if_neg (by simp [insertChild_isEmpty])]
          simp only [optHolds]
          apply nodeNoOrphans_CreateNode_nonempty
          · exact childrenNoOrphans_insert _ _ _ hce hIH
          · exact insertChild_isEmpty _ _ _

theorem reachable_public_noOrphans (t : Trie) (h : Reachable t) :
    triePublic t = true ∧ trieNoOrphans t = true := by
  induction h with
  | empty => exact ⟨rfl, rfl⟩
  | putStep key hr hv ih =>
    refine ⟨?_, ?_⟩
    · exact nodePublic_PutHelper key _ _ ih.1 hv
    · exact nodeNoOrphans_PutHelper key _ _ ih.2
  | removeStep key hr ih =>
    refine ⟨?_, ?_⟩
    · exact nodePublic_RemoveHelper key _ ih.1
    · exact nodeNoOrphans_RemoveHelper key _ ih.1 ih.2

/-! ## The allocation count and the off-path sharing of Put -/

theorem PutHelperC_fst (key : List Char) (node : Option TrieNode) (v : TrieValue) :
    (PutHelperC node key v).1 = PutHelper node key v := by
  induction key generalizing node with
  | nil => cases node <;> rfl
  | cons c rest ih =>
    cases node with
    | none =>
      simp only [PutHelperC, PutHelper]
      cases hf : findChild [] c <;> simp [hf, ih]
    | some n =>
      simp only [PutHelperC, PutHelper]
      cases hf : findChild n.children c <;> simp [hf, ih]

theorem PutHelperC_snd (key : List Char) (node : Option TrieNode) (v : TrieValue) :
    (PutHelperC node key v).2 = key.length + 1 := by
  induction key generalizing node with
  | nil => cases node <;> rfl
  | cons c rest ih =>
    cases node with
    | none =>
      simp only [PutHelperC, List.length_cons]
      cases hf : findChild [] c <;> simp [hf, ih]
    | some n =>
      simp only [PutHelperC, List.length_cons]
      cases hf : findChild n.children c <;> simp [hf, ih]

theorem offPathAgree_none_orig (m : TrieNode) (key : List Char) :
    offPathAgree m none key := by
  cases key <;> simp [offPathAgree]

theorem offPathAgree_PutHelper (key : List Char) (node : Option TrieNode) (v : TrieValue) :
    offPathAgree (PutHelper node key v) node key := by
  induction key generalizing node with
  | nil =>
    cases node <;> simp [offPathAgree]
  | cons c rest ih =>
    cases node with
    | none => exact offPathAgree_none_orig _ _
    | some n =>
      rw [PutHelper_cons]
      simp only [offPathAgree, CreateNodeWithNewChildren_children, childrenOf]
      constructor
      · intro b hb
        exact findChild_insertChild_ne _ _ _ _ hb
      · rw [findChild_insertChild_self]
        exact ih (findChild n.children c)

/-! ## The fallback flag -/

theorem CreateNodeWithNewChildrenF_fst (node : Option TrieNode)
    (ncs : List (Char × TrieNode)) :
    (CreateNodeWithNewChildrenF node ncs).1 = CreateNodeWithNewChildren node ncs := by
  cases node with
  | none => rfl
  | some n =>
    cases n with
    | mk cs v =>
      cases v with
      | none => rfl
      | some x => cases x <;> rfl

theorem CreateNodeWithNewChildrenF_snd_public (n : TrieNode)
    (ncs : List (Char × TrieNode)) (hp : nodePublic n = true) :
    (CreateNodeWithNewChildrenF (some n) ncs).2 = false := by
  cases n with
  | mk cs v =>
    cases v with
    | none => rfl
    | some x =>
      have hx := (nodePublic_parts (.mk cs (some x)) hp).1 x rfl
      cases x <;> simp_all [publicValue, CreateNodeWithNewChildrenF, TrieNode.value]

theorem PutHelperF_fst (key : List Char) (node : Option TrieNode) (v : TrieValue) :
    (PutHelperF node key v).1 = PutHelper node key v := by
  induction key generalizing node with
  | nil => cases node <;> rfl
  | cons c rest ih =>
    cases node with
    | none =>
      simp only [PutHelperF, PutHelper]
      cases hf : findChild [] c <;> simp [hf, ih, CreateNodeWithNewChildrenF_fst]
    | some n =>
      simp only [PutHelperF, PutHelper]
      cases hf : findChild n.children c <;> simp [hf, ih, CreateNodeWithNewChildrenF_fst]

theorem PutHelperF_snd_public (key : List Char) (node : Option TrieNode) (v : TrieValue)
    (hp : optHolds nodePublic node = true) :
    (PutHelperF node key v).2 = false := by
  induction key generalizing node with
  | nil => cases node <;> rfl
  | cons c rest ih =>
    cases node with
    | none =>
      simp only [PutHelperF]
      cases hf : findChild [] c with
      | none => simp [hf, ih none rfl, CreateNodeWithNewChildrenF]
      | some old => simp [findChild] at hf
    | some n =>
      simp only [PutHelperF]
      cases hf : findChild n.children c with
      | none =>
        simp [hf, ih none rfl, CreateNodeWithNewChildrenF_snd_public n _ hp]
      | some old =>
        have hold : nodePublic old = true := by
          have h2 := nodePublic_child n c hp
          rw [hf] at h2
          exact h2
        simp [hf, ih (some old) hold, CreateNodeWithNewChildrenF_snd_public n _ hp]

theorem RemoveHelperF_none (key : List Char) : RemoveHelperF none key = (none, false) := by
  cases key <;> rfl

theorem RemoveHelperF_some_nil (n : TrieNode) :
    RemoveHelperF (some n) [] =
      (if n.children.isEmpty then (none, false)
       else (some (.mk n.children none), false)) := rfl

theorem RemoveHelperF_some_cons_miss (n : TrieNode) (c : Char) (rest : List Char)
    (h : findChild n.children c = none) :
    RemoveHelperF (some n) (c :: rest) = (some n, false) := by
  simp [RemoveHelperF, h]

theorem RemoveHelperF_some_cons_hit (n : TrieNode) (c : Char) (rest : List Char)
    (child : TrieNode) (h : findChild n.children c = some child) :
    RemoveHelperF (some n) (c :: rest) =
      (if n.value.isNone &&
          (updatedChildren n.children c (RemoveHelperF (some child) rest).1).isEmpty then
        (none, (RemoveHelperF (some child) rest).2)
      else
        (some (CreateNodeWithNewChildrenF (some n)
            (updatedChildren n.children c (RemoveHelperF (some child) rest).1)).1,
         (RemoveHelperF (some child) rest).2 ||
           (CreateNodeWithNewChildrenF (some n)
             (updatedChildren n.children c (RemoveHelperF (some child) rest).1)).2)) := by
  simp only [RemoveHelperF, h]
  cases hnc : (RemoveHelperF (some child) rest).1 with
  | none => simp [updatedChildren]
  | some x => simp [updatedChildren]

theorem RemoveHelperF_fst (key : List Char) (node : Option TrieNode) :
    (RemoveHelperF node key).1 = RemoveHelper node key := by
  induction key generalizing node with
  | nil =>
    cases node with
    | none => rfl
    | some n =>
      rw [RemoveHelperF_some_nil, RemoveHelper_some_nil]
      cases hE : n.children.isEmpty <;> rfl
  | cons c rest ih =>
    cases node with
    | none => rw [RemoveHelperF_none, RemoveHelper_none]
    | some n =>
      cases hf : findChild n.children c with
      | none =>
        rw [RemoveHelperF_some_cons_miss n c rest hf, RemoveHelper_some_cons_miss n c rest hf]
      | some child =>
        rw [RemoveHelperF_some_cons_hit n c rest child hf,
          RemoveHelper_some_cons_hit n c rest child hf, ih (some child),
          CreateNodeWithNewChildrenF_fst]
        cases hcond : (n.value.isNone &&
          (updatedChildren n.children c (RemoveHelper (some child) rest)).isEmpty) <;> rfl

theorem RemoveHelperF_snd_public (key : List Char) (node : Option TrieNode)
    (hp : optHolds nodePublic node = true) :
    (RemoveHelperF node key).2 = false := by
  induction key generalizing node with
  | nil =>
    cases node with
    | none => rfl
    | some n =>
      rw [RemoveHelperF_some_nil]
      cases hE : n.children.isEmpty <;> rfl
  | cons c rest ih =>
    cases node with
    | none => rw [RemoveHelperF_none]
    | some n =>
      cases hf : findChild n.children c with
      | none => rw [RemoveHelperF_some_cons_miss n c rest hf]
      | some child =>
        have hchildP : nodePublic child = true := by
          have h2 := nodePublic_child n c hp
          rw [hf] at h2
          exact h2
        have hIH := ih (some child) hchildP
        rw [RemoveHelperF_some_cons_hit n c rest child hf]
        cases hcond : (n.value.isNone &&
            (updatedChildren n.children c (RemoveHelperF (some child) rest).1).isEmpty) with
        | true => simpa using hIH
        | false =>
          simp [hIH, CreateNodeWithNewChildrenF_snd_public n _ hp]

/-! ## Shared corollaries -/

theorem Get_Put_self (S : Trie) (K : List Char) (v : TrieValue) (T : Tag) :
    Trie.Get T (S.Put K v) K = if tagMatches T v then some v else none := by
  rw [Get_eq_lookupV]
  have h1 : (S.Put K v).root = some (PutHelper S.root K v) := rfl
  rw [h1, lookupV_PutHelper_self]

theorem tagMatches_unique (v : TrieValue) (T2 : Tag) (h : tagMatches T2 v = true) (T : Tag) :
    tagMatches T v = decide (T = T2) := by
  cases v <;> cases T2 <;> cases T <;> simp_all [tagMatches]

/-! ## The claims -/

/-- C1: round-trip.  For every trie S, every key K (the empty key included)
and every value v of one of the instantiated types (its type tag being T),
Get with tag T at K on S.Put(K, v) yields exactly v. -/
theorem put_get_roundtrip (S : Trie) (K : List Char) (v : TrieValue) (T : Tag)
    (h : tagMatches T v = true) :
    Trie.Get T (S.Put K v) K = some v := by
  rw [Get_Put_self, if_pos h]

theorem put_get_roundtrip_witness :
    Trie.Get .u32 ((Trie.empty.Put ['x'] (.u64 5)).Put ['h','i'] (.u32 42)) ['h','i'] =
      some (.u32 42) :=
  put_get_roundtrip (Trie.empty.Put ['x'] (.u64 5)) ['h','i'] (.u32 42) .u32 (by decide)

/-- C2: Put non-interference.  For every trie whose payloads all belong to
the downcast ladder (every trie constructible through the public interface
does, by reachable_public_noOrphans), a Put at key K leaves the typed Get
result at every other key K2 unchanged, for every tag. -/
theorem put_noninterference (S : Trie) (K K2 : List Char) (v : TrieValue) (U : Tag)
    (hne : K2 ≠ K) (hlad : trieLaddered S = true) :
    Trie.Get U (S.Put K v) K2 = Trie.Get U S K2 := by
  rw [Get_eq_lookupV, Get_eq_lookupV]
  have h1 : (S.Put K v).root = some (PutHelper S.root K v) := rfl
  rw [h1, lookupV_PutHelper_other K S.root v K2 hne hlad]

theorem put_noninterference_witness :
    Trie.Get .str ((Trie.empty.Put ['a','b'] (.str "x")).Put ['a','c'] (.u32 1)) ['a','b'] =
      Trie.Get .str (Trie.empty.Put ['a','b'] (.str "x")) ['a','b'] :=
  put_noninterference (Trie.empty.Put ['a','b'] (.str "x")) ['a','c'] ['a','b'] (.u32 1)
    .str (by decide) (by decide)

/-- C3: the failure accounting the claim describes does not hold of the
code.  A registered test whose body fails ASSERT_TRUE(false) returns early
without throwing, so the runner counts it as passed and RUN_ALL_TESTS
returns exit status 0, although the test did not succeed. -/
theorem harness_assertion_failure_not_counted :
    Harness.runBody ⟨"TrieTest.Fail", [false], false⟩ = Harness.Outcome.assertionFailed ∧
      Harness.testSucceeded ⟨"TrieTest.Fail", [false], false⟩ = false ∧
      Harness.runAllTests [⟨"TrieTest.Fail", [false], false⟩] = ⟨1, 0⟩ ∧
      Harness.exitStatus [⟨"TrieTest.Fail", [false], false⟩] = 0 :=
  ⟨rfl, rfl, rfl, rfl⟩

/-- C4: remove-after-put with cascade.  Removing K from the trie built by a
single Put of K on the empty trie prunes the whole spine: the root of the
result is absent, every typed Get at K on it reports absence, and the
receiver still yields the value at K. -/
theorem remove_after_put_cascade (K : List Char) (v : TrieValue) (T : Tag)
    (h : tagMatches T v = true) :
    ((Trie.empty.Put K v).Remove K).root = none ∧
      (∀ U : Tag, Trie.Get U ((Trie.empty.Put K v).Remove K) K = none) ∧
      Trie.Get T (Trie.empty.Put K v) K = some v := by
  have hroot : ((Trie.empty.Put K v).Remove K).root = none :=
    RemoveHelper_PutHelper_chain K v
  refine ⟨hroot, fun U => ?_, ?_⟩
  · rw [Get_eq_lookupV, hroot]
    rfl
  · rw [Get_Put_self, if_pos h]

theorem remove_after_put_cascade_witness :
    ((Trie.empty.Put ['a','b','c'] (.u32 7)).Remove ['a','b','c']).root = none ∧
      (∀ U : Tag,
        Trie.Get U ((Trie.empty.Put ['a','b','c'] (.u32 7)).Remove ['a','b','c'])
          ['a','b','c'] = none) ∧
      Trie.Get .u32 (Trie.empty.Put ['a','b','c'] (.u32 7)) ['a','b','c'] =
        some (.u32 7) :=
  remove_after_put_cascade ['a','b','c'] (.u32 7) .u32 (by decide)

/-- C5: overwrite.  After two Puts at the same key, a Get at that key
yields the second value under its tag T2 and absence under every other
tag; the first value is not retrievable. -/
theorem put_overwrite (S : Trie) (K : List Char) (v1 v2 : TrieValue) (T2 T : Tag)
    (h2 : tagMatches T2 v2 = true) :
    Trie.Get T ((S.Put K v1).Put K v2) K = if T = T2 then some v2 else none := by
  rw [Get_Put_self, tagMatches_unique v2 T2 h2 T]
  simp

theorem put_overwrite_witness :
    Trie.Get .str ((Trie.empty.Put ['k'] (.u32 1)).Put ['k'] (.str "one")) ['k'] =
        (if Tag.str = Tag.str then some (.str "one") else none) ∧
      Trie.Get .u32 ((Trie.empty.Put ['k'] (.u32 1)).Put ['k'] (.str "one")) ['k'] =
        (if Tag.u32 = Tag.str then some (.str "one") else none) :=
  ⟨put_overwrite Trie.empty ['k'] (.u32 1) (.str "one") .str .str (by decide),
   put_overwrite Trie.empty ['k'] (.u32 1) (.str "one") .str .u32 (by decide)⟩

/-- C6: type fidelity.  A value stored at K under tag T is not visible
under any other tag: Get with a different tag at K reports absence. -/
theorem get_type_fidelity (S : Trie) (K : List Char) (v : TrieValue) (T U : Tag)
    (h : tagMatches T v = true) (hne : U ≠ T) :
    Trie.Get U (S.Put K v) K = none := by
  rw [Get_Put_self, tagMatches_unique v T h U]
  simp [hne]

theorem get_type_fidelity_witness :
    Trie.Get .u64 (Trie.empty.Put ['h'] (.u32 9)) ['h'] = none :=
  get_type_fidelity Trie.empty ['h'] (.u32 9) .u32 .u64 (by decide) (by decide)

/-- C7: remove of an absent key is an observational no-op.  If no value is
stored at K (the path may be missing or end at an internal node) in a trie
whose payloads all belong to the downcast ladder, then every typed Get at
every key agrees between S.Remove(K) and S. -/
theorem remove_absent_noop (S : Trie) (K : List Char)
    (hlad : trieLaddered S = true) (habs : lookupV S.root K = none) :
    ∀ (K2 : List Char) (T : Tag), Trie.Get T (S.Remove K) K2 = Trie.Get T S K2 := by
  intro K2 T
  rw [Get_eq_lookupV, Get_eq_lookupV]
  have h1 : (S.Remove K).root = RemoveHelper S.root K := rfl
  rw [h1, lookupV_RemoveHelper_absent K S.root hlad habs K2]

theorem remove_absent_noop_witness :
    Trie.Get .u32 ((Trie.empty.Put ['a','b'] (.u32 3)).Remove ['x','y']) ['a','b'] =
      Trie.Get .u32 (Trie.empty.Put ['a','b'] (.u32 3)) ['a','b'] :=
  remove_absent_noop (Trie.empty.Put ['a','b'] (.u32 3)) ['x','y'] (by decide) (by decide)
    ['a','b'] .u32

/-- C8: no orphan internals.  Every trie reachable from the empty trie
through the public Put and Remove operations has no valueless childless
reachable node, and one further public Put or Remove preserves the
invariant. -/
theorem no_orphan_internals (S : Trie) (h : Reachable S) :
    trieNoOrphans S = true ∧
      (∀ (K : List Char) (v : TrieValue), publicValue v = true →
        trieNoOrphans (S.Put K v) = true) ∧
      (∀ K : List Char, trieNoOrphans (S.Remove K) = true) := by
  refine ⟨(reachable_public_noOrphans S h).2, fun K v hv => ?_, fun K => ?_⟩
  · exact (reachable_public_noOrphans _ (Reachable.putStep K h hv)).2
  · exact (reachable_public_noOrphans _ (Reachable.removeStep K h)).2

theorem no_orphan_internals_witness :
    trieNoOrphans ((Trie.empty.Put ['a','b'] (.u32 1)).Remove ['a']) = true ∧
      (∀ (K : List Char) (v : TrieValue), publicValue v = true →
        trieNoOrphans (((Trie.empty.Put ['a','b'] (.u32 1)).Remove ['a']).Put K v) = true) ∧
      (∀ K : List Char,
        trieNoOrphans (((Trie.empty.Put ['a','b'] (.u32 1)).Remove ['a']).Remove K) = true) :=
  no_orphan_internals ((Trie.empty.Put ['a','b'] (.u32 1)).Remove ['a'])
    (Reachable.removeStep ['a'] (Reachable.putStep ['a','b'] Reachable.empty (by decide)))

/-- C9: structural sharing of Put.  The instrumented rebuild allocates at
most one node per key byte plus one (and coincides with PutHelper), the
new facade wraps the rebuilt spine, and along the key every child of every
on-path node of the receiver whose byte differs from the on-path byte is
the same subtree in the result. -/
theorem put_structural_sharing (t : Trie) (K : List Char) (v : TrieValue) :
    (PutHelperC t.root K v).2 ≤ K.length + 1 ∧
      (PutHelperC t.root K v).1 = PutHelper t.root K v ∧
      (t.Put K v).root = some (PutHelper t.root K v) ∧
      offPathAgree (PutHelper t.root K v) t.root K :=
  ⟨le_of_eq (PutHelperC_snd K t.root v), PutHelperC_fst K t.root v, rfl,
    offPathAgree_PutHelper K t.root v⟩

/-- C10: the payload-dropping fallback of CreateNodeWithNewChildren is
unreachable through the public interface.  On every reachable trie, the
instrumented Put (for a value of an instantiated type) and the
instrumented Remove never take the fallback branch, and they coincide with
the uninstrumented operations. -/
theorem fallback_unreachable (S : Trie) (h : Reachable S) :
    ∀ (K : List Char) (v : TrieValue), publicValue v = true →
      ((PutHelperF S.root K v).2 = false ∧
        (PutHelperF S.root K v).1 = PutHelper S.root K v ∧
        (RemoveHelperF S.root K).2 = false ∧
        (RemoveHelperF S.root K).1 = RemoveHelper S.root K) := by
  intro K v hv
  have hp : optHolds nodePublic S.root = true := (reachable_public_noOrphans S h).1
  exact ⟨PutHelperF_snd_public K S.root v hp, PutHelperF_fst K S.root v,
    RemoveHelperF_snd_public K S.root hp, RemoveHelperF_fst K S.root⟩

theorem fallback_unreachable_witness :
    (PutHelperF ((Trie.empty.Put ['a'] (.str "s")).root) ['a','b'] (.u32 2)).2 = false ∧
      (PutHelperF ((Trie.empty.Put ['a'] (.str "s")).root) ['a','b'] (.u32 2)).1 =
        PutHelper ((Trie.empty.Put ['a'] (.str "s")).root) ['a','b'] (.u32 2) ∧
      (RemoveHelperF ((Trie.empty.Put ['a'] (.str "s")).root) ['a','b']).2 = false ∧
      (RemoveHelperF ((Trie.empty.Put ['a'] (.str "s")).root) ['a','b']).1 =
        RemoveHelper ((Trie.empty.Put ['a'] (.str "s")).root) ['a','b'] :=
  fallback_unreachable (Trie.empty.Put ['a'] (.str "s"))
    (Reachable.putStep ['a'] Reachable.empty (by decide)) ['a','b'] (.u32 2) (by decide)
